import Mathlib

/-!
Verification of the switching-activity engine in `src/opt/sim/simSwitch.c`
(ABC logic-synthesis system, file `simSwitch.c`).

Shallow-embedding conventions used throughout this file:

* C `unsigned` simulation words are `Nat` values; where 32-bit-ness matters
  theorems carry the hypothesis `w < 2 ^ 32`.  The bitwise complement `~w`
  of a 32-bit word is `2 ^ 32 - 1 - w`.
* C `float`/`double` arithmetic is modelled by exact rational arithmetic
  over `ℚ` (the usual exact-real reading of the numeric formulas; rounding
  behaviour is out of scope).
* A text file is a `List String` of its lines, each line given without its
  trailing newline character; `fgets` corresponds to taking the next list
  element, end-of-file to the empty list.
* The network collaborators (`Abc_NtkForEachCi`, `Abc_AigDfs`,
  `Abc_NtkObjNumMax`, ...) are modelled by the data they enumerate: a
  network is a list of combinational-input identifiers, a list of AND
  gates in the dependency (DFS) order returned by `Abc_AigDfs`, and the
  maximum object count.
* Undefined behaviour of the C code (out-of-bounds array accesses, reads
  of uninitialised memory) is made explicit as a distinguished outcome of
  the embedded functions rather than silently given a value.
* In `Sim_NtkLoadSwitching` the C source (line 123) assigns the pointer
  returned by `Vec_IntStart` to the `int` variable `nNodes`; the numeric
  value of `nNodes` is therefore indeterminate (the low bits of a fresh
  heap pointer).  The embedding takes this value as an explicit `Int`
  parameter and theorems quantify over it.
-/

/-! ### Bit counting (`Sim_UtilCountOnes`, from the spec of `simUtils.c`) -/

/-- Sum of the low `fuel` bits of `n` (structural fuel recursion so that
concrete values reduce by `decide`). -/
def popCountAux : Nat → Nat → Nat
  | 0, _ => 0
  | fuel + 1, n => n % 2 + popCountAux fuel (n / 2)

/-- Number of set bits of a 32-bit simulation word. -/
def popCount32 (w : Nat) : Nat := popCountAux 32 w

/-- Modelled from the spec: `Sim_UtilCountOnes` (declared in `sim.h`, body in
`simUtils.c`, which is not under `src/`) returns "`nOnes` = count of set bits
across the buffer" (spec §4.4). -/
def Sim_UtilCountOnes (pSimInfo : List Nat) : Nat :=
  (pSimInfo.map popCount32).sum

/-- Bitwise complement of a 32-bit word: for `w < 2 ^ 32` the C expression
`~w` on `unsigned` has the numeric value `2 ^ 32 - 1 - w`. -/
def compl32 (w : Nat) : Nat := 2 ^ 32 - 1 - w

theorem popCountAux_le (fuel : Nat) : ∀ n, popCountAux fuel n ≤ fuel := by
  induction fuel with
  | zero => intro n; simp [popCountAux]
  | succ f ih =>
    intro n
    have h1 : n % 2 ≤ 1 := by omega
    have h2 : popCountAux f (n / 2) ≤ f := ih (n / 2)
    simp only [popCountAux]
    omega

theorem popCount32_le (w : Nat) : popCount32 w ≤ 32 := popCountAux_le 32 w

theorem Sim_UtilCountOnes_le (buf : List Nat) :
    Sim_UtilCountOnes buf ≤ 32 * buf.length := by
  induction buf with
  | nil => simp [Sim_UtilCountOnes]
  | cons w l ih =>
    have hw := popCount32_le w
    simp only [Sim_UtilCountOnes, List.map_cons, List.sum_cons, List.length_cons] at *
    omega

theorem popCountAux_compl (k : Nat) :
    ∀ w, w < 2 ^ k → popCountAux k (2 ^ k - 1 - w) = k - popCountAux k w := by
  induction k with
  | zero =>
    intro w hw
    interval_cases w
    rfl
  | succ k ih =>
    intro w hw
    have h2 : 2 ^ (k + 1) = 2 * 2 ^ k := by ring
    have hm2 : (2 ^ (k + 1) - 1 - w) % 2 = 1 - w % 2 := by omega
    have hd2 : (2 ^ (k + 1) - 1 - w) / 2 = 2 ^ k - 1 - w / 2 := by omega
    have hw2 : w / 2 < 2 ^ k := by omega
    have hle : popCountAux k (w / 2) ≤ k := popCountAux_le k (w / 2)
    have hm : w % 2 ≤ 1 := by omega
    simp only [popCountAux, hm2, hd2, ih (w / 2) hw2]
    omega

theorem popCount32_compl (w : Nat) (hw : w < 2 ^ 32) :
    popCount32 (compl32 w) = 32 - popCount32 w :=
  popCountAux_compl 32 w hw

theorem Sim_UtilCountOnes_map_compl (buf : List Nat)
    (hw : ∀ w ∈ buf, w < 2 ^ 32) :
    Sim_UtilCountOnes (buf.map compl32) = 32 * buf.length - Sim_UtilCountOnes buf := by
  induction buf with
  | nil => simp [Sim_UtilCountOnes]
  | cons w l ih =>
    have hwl : ∀ x ∈ l, x < 2 ^ 32 := fun x hx => hw x (List.mem_cons_of_mem w hx)
    have hcw : popCount32 (compl32 w) = 32 - popCount32 w :=
      popCount32_compl w (hw w (List.mem_cons_self w l))
    have h1 := popCount32_le w
    have h2 := Sim_UtilCountOnes_le l
    have ih2 := ih hwl
    simp only [Sim_UtilCountOnes, List.map_cons, List.sum_cons, List.length_cons] at *
    omega

/-! ### The switching metric (`Sim_ComputeSwitching`, `simSwitch.c` lines 321-327) -/

/-- Embedding of `Sim_ComputeSwitching` (`simSwitch.c` lines 321-327):
`nTotal = 32 * nSimWords`, `nOnes = Sim_UtilCountOnes(pSimInfo, nSimWords)`,
result `(float)2.0 * nOnes / nTotal * (nTotal - nOnes) / nTotal` with the
C left-to-right association; the buffer argument is the sequence of exactly
`nSimWords` words the C pointer gives access to. -/
def Sim_ComputeSwitching (pSimInfo : List Nat) (nSimWords : Nat) : ℚ :=
  2 * (Sim_UtilCountOnes pSimInfo : ℚ) / ((32 * nSimWords : Nat) : ℚ)
    * (((32 * nSimWords : Nat) : ℚ) - (Sim_UtilCountOnes pSimInfo : ℚ))
    / ((32 * nSimWords : Nat) : ℚ)

theorem Sim_ComputeSwitching_formula (buf : List Nat) (n : Nat) (hn : 1 ≤ n) :
    Sim_ComputeSwitching buf n
      = 2 * ((Sim_UtilCountOnes buf : ℚ) / ((32 * n : Nat) : ℚ))
          * (1 - (Sim_UtilCountOnes buf : ℚ) / ((32 * n : Nat) : ℚ)) := by
  have hc : ((32 * n : Nat) : ℚ) ≠ 0 := by
    have : 0 < 32 * n := by omega
    exact_mod_cast this.ne'
  unfold Sim_ComputeSwitching
  field_simp

theorem Sim_ComputeSwitching_le_half (buf : List Nat) (n : Nat) :
    Sim_ComputeSwitching buf n ≤ 1 / 2 := by
  unfold Sim_ComputeSwitching
  set a : ℚ := (Sim_UtilCountOnes buf : ℚ) with ha
  set c : ℚ := ((32 * n : Nat) : ℚ) with hc
  rcases eq_or_ne c 0 with h0 | h0
  · simp [h0]
  · have hcpos : 0 < c := by
      have : (0 : ℚ) ≤ c := by rw [hc]; exact_mod_cast Nat.zero_le _
      exact lt_of_le_of_ne this (Ne.symm h0)
    rw [div_mul_eq_mul_div, div_div, div_le_iff₀ (by positivity)]
    nlinarith [sq_nonneg (c - 2 * a)]

theorem Sim_ComputeSwitching_nonneg (buf : List Nat) (n : Nat)
    (hlen : buf.length = n) :
    0 ≤ Sim_ComputeSwitching buf n := by
  unfold Sim_ComputeSwitching
  have hones : (Sim_UtilCountOnes buf : ℚ) ≤ ((32 * n : Nat) : ℚ) := by
    have := Sim_UtilCountOnes_le buf
    rw [hlen] at this
    exact_mod_cast this
  have h0 : (0 : ℚ) ≤ (Sim_UtilCountOnes buf : ℚ) := by positivity
  have hc : (0 : ℚ) ≤ ((32 * n : Nat) : ℚ) := by positivity
  apply div_nonneg _ hc
  apply mul_nonneg _ (by linarith)
  positivity

/-- Claim C3: for every buffer and every `wordCount ≥ 1`, `Sim_ComputeSwitching`
returns `2 * (nOnes / nTotal) * (1 - nOnes / nTotal)` where `nTotal = 32 *
wordCount` and `nOnes` is the number of set bits in the buffer; in particular
`nOnes = 0` and `nOnes = nTotal` both yield exactly `0`. -/
theorem C3_switching_metric_formula (buf : List Nat) (n : Nat) (hn : 1 ≤ n) :
    Sim_ComputeSwitching buf n
      = 2 * ((Sim_UtilCountOnes buf : ℚ) / ((32 * n : Nat) : ℚ))
          * (1 - (Sim_UtilCountOnes buf : ℚ) / ((32 * n : Nat) : ℚ))
    ∧ (Sim_UtilCountOnes buf = 0 → Sim_ComputeSwitching buf n = 0)
    ∧ (Sim_UtilCountOnes buf = 32 * n → Sim_ComputeSwitching buf n = 0) := by
  refine ⟨Sim_ComputeSwitching_formula buf n hn, fun h0 => ?_, fun hall => ?_⟩
  · unfold Sim_ComputeSwitching
    rw [h0]
    simp
  · unfold Sim_ComputeSwitching
    rw [hall]
    simp

theorem C3_switching_metric_formula_witness :
    Sim_ComputeSwitching [5] 1
      = 2 * ((Sim_UtilCountOnes [5] : ℚ) / ((32 * 1 : Nat) : ℚ))
          * (1 - (Sim_UtilCountOnes [5] : ℚ) / ((32 * 1 : Nat) : ℚ))
    ∧ (Sim_UtilCountOnes [5] = 0 → Sim_ComputeSwitching [5] 1 = 0)
    ∧ (Sim_UtilCountOnes [5] = 32 * 1 → Sim_ComputeSwitching [5] 1 = 0) :=
  C3_switching_metric_formula [5] 1 (by decide)

/-- Claim C4: for every buffer of `wordCount ≥ 1` 32-bit words,
`Sim_ComputeSwitching` on the buffer with every bit complemented equals
`Sim_ComputeSwitching` on the original buffer. -/
theorem C4_complement_invariance (buf : List Nat) (n : Nat) (hn : 1 ≤ n)
    (hlen : buf.length = n) (hw : ∀ w ∈ buf, w < 2 ^ 32) :
    Sim_ComputeSwitching (buf.map compl32) n = Sim_ComputeSwitching buf n := by
  have hones : Sim_UtilCountOnes (buf.map compl32)
      = 32 * n - Sim_UtilCountOnes buf := by
    rw [Sim_UtilCountOnes_map_compl buf hw, hlen]
  have hle : Sim_UtilCountOnes buf ≤ 32 * n := by
    have := Sim_UtilCountOnes_le buf
    omega
  have hc : ((32 * n : Nat) : ℚ) ≠ 0 := by
    have : 0 < 32 * n := by omega
    exact_mod_cast this.ne'
  unfold Sim_ComputeSwitching
  rw [hones]
  have hcast : ((32 * n - Sim_UtilCountOnes buf : Nat) : ℚ)
      = ((32 * n : Nat) : ℚ) - (Sim_UtilCountOnes buf : ℚ) := by
    push_cast [Nat.cast_sub hle]
    ring
  rw [hcast]
  field_simp
  ring

theorem C4_complement_invariance_witness :
    Sim_ComputeSwitching (([3, 4294967295] : List Nat).map compl32) 2
      = Sim_ComputeSwitching [3, 4294967295] 2 :=
  C4_complement_invariance [3, 4294967295] 2 (by decide) (by decide)
    (by decide)

/-- Claim C9 (implicit): for every buffer and every `wordCount ≥ 1` the value
returned by `Sim_ComputeSwitching` never exceeds `1 / 2`. -/
theorem C9_switching_le_half (buf : List Nat) (n : Nat) (_hn : 1 ≤ n) :
    Sim_ComputeSwitching buf n ≤ 1 / 2 :=
  Sim_ComputeSwitching_le_half buf n

theorem C9_switching_le_half_witness :
    Sim_ComputeSwitching [4294967295] 1 ≤ 1 / 2 :=
  C9_switching_le_half [4294967295] 1 (by decide)

/-! ### A character-level model of the two `sscanf` record formats -/

/-- Whitespace in the C locale (`isspace`), as skipped by `scanf`
whitespace directives and numeric conversions. -/
def isWsC (c : Char) : Bool :=
  c == ' ' || c == '\t' || c == '\n' || c == '\r' || c == '\x0b' || c == '\x0c'

/-- Whitespace directive of a `scanf` format: skip any amount of leading
whitespace (possibly none). -/
def skipWs : List Char → List Char
  | [] => []
  | c :: l => if isWsC c then skipWs l else c :: l

/-- Greedy decimal-digit scan with accumulator (the digit body of `%d`). -/
def goDigits : Nat → List Char → Nat × List Char
  | acc, [] => (acc, [])
  | acc, c :: l =>
    if c.isDigit then goDigits (10 * acc + (c.toNat - 48)) l else (acc, c :: l)

/-- Scan at least one decimal digit, greedily. -/
def scanDigits : List Char → Option (Nat × List Char)
  | [] => none
  | c :: l => if c.isDigit then some (goDigits (c.toNat - 48) l) else none

/-- The `%d` conversion of `sscanf`: skip whitespace, optional sign, then at
least one decimal digit (values unbounded here; the inputs of interest fit
in a C `int`). -/
def scanInt (l : List Char) : Option (Int × List Char) :=
  match skipWs l with
  | [] => none
  | c :: l2 =>
    if c = '-' then (scanDigits l2).map (fun p => (-(p.1 : Int), p.2))
    else if c = '+' then (scanDigits l2).map (fun p => ((p.1 : Int), p.2))
    else (scanDigits (c :: l2)).map (fun p => ((p.1 : Int), p.2))

/-- Greedy scan of a possibly empty digit sequence: value, number of digits
consumed, rest. -/
def optDigits : Nat → Nat → List Char → Nat × Nat × List Char
  | acc, len, [] => (acc, len, [])
  | acc, len, c :: l =>
    if c.isDigit then optDigits (10 * acc + (c.toNat - 48)) (len + 1) l
    else (acc, len, c :: l)

/-- Exponent part after a consumed `e`/`E` marker; falls back to the
un-consumed original when no digits follow. -/
def scanExpAfterMark (orig r : List Char) : Int × List Char :=
  match r with
  | '-' :: r2 =>
    match scanDigits r2 with
    | some p => (-(p.1 : Int), p.2)
    | none => (0, orig)
  | '+' :: r2 =>
    match scanDigits r2 with
    | some p => ((p.1 : Int), p.2)
    | none => (0, orig)
  | _ =>
    match scanDigits r with
    | some p => ((p.1 : Int), p.2)
    | none => (0, orig)

/-- Optional decimal exponent of the `%f` conversion. -/
def scanExp : List Char → Int × List Char
  | 'e' :: r => scanExpAfterMark ('e' :: r) r
  | 'E' :: r => scanExpAfterMark ('E' :: r) r
  | l => (0, l)

/-- Exact rational value of a parsed decimal literal with sign `neg`,
integer part `ip`, fractional part `fp` of `flen` digits and decimal
exponent `e`, built from integer arithmetic and a single `mkRat` so that
concrete values reduce inside `decide`. -/
def decValue (neg : Bool) (ip fp flen : Nat) (e : Int) : ℚ :=
  let m : Nat := ip * 10 ^ flen + fp
  let mi : Int := if neg then -(m : Int) else (m : Int)
  if 0 ≤ e then mkRat (mi * (10 : Int) ^ e.toNat) (10 ^ flen)
  else mkRat mi (10 ^ flen * 10 ^ (-e).toNat)

/-- Unsigned part of the `%f` conversion: the C `strtod` decimal grammar
`digits [. [digits]]` or `. digits`, with optional exponent; at least one
mantissa digit is required.  Returns integer part, fractional part,
fractional digit count and exponent. -/
def scanUFloat (l : List Char) : Option ((Nat × Nat × Nat × Int) × List Char) :=
  match optDigits 0 0 l with
  | (ip, ilen, l1) =>
    match l1 with
    | '.' :: l2 =>
      (match optDigits 0 0 l2 with
       | (fp, flen, l3) =>
         if ilen + flen = 0 then none
         else
           match scanExp l3 with
           | (e, l4) => some ((ip, fp, flen, e), l4))
    | _ =>
      if ilen = 0 then none
      else
        match scanExp l1 with
        | (e, l4) => some ((ip, 0, 0, e), l4)

/-- The `%f` conversion of `sscanf`: skip whitespace, optional sign,
mantissa and optional exponent; the value is exact over `ℚ`. -/
def scanFloat (l : List Char) : Option (ℚ × List Char) :=
  match skipWs l with
  | '-' :: l2 =>
    (scanUFloat l2).map (fun p => (decValue true p.1.1 p.1.2.1 p.1.2.2.1 p.1.2.2.2, p.2))
  | '+' :: l2 =>
    (scanUFloat l2).map (fun p => (decValue false p.1.1 p.1.2.1 p.1.2.2.1 p.1.2.2.2, p.2))
  | l2 =>
    (scanUFloat l2).map (fun p => (decValue false p.1.1 p.1.2.1 p.1.2.2.1 p.1.2.2.2, p.2))

/-- Match one literal (non-whitespace) format character. -/
def lit (c : Char) : List Char → Option (List Char)
  | [] => none
  | c2 :: l => if c2 = c then some l else none

/-- Match a sequence of literal format characters. -/
def lits : List Char → List Char → Option (List Char)
  | [], l => some l
  | c :: cs, l => (lit c l).bind (lits cs)

/-- Embedding of `sscanf(buffer, "CI %*d: ID=%d %f", &id, &value) == 2`
(`simSwitch.c` line 170): `some (id, value)` exactly when both conversions
succeed; the `%*d` enumeration index is scanned but discarded. -/
def sscanfCI (s : String) : Option (Int × ℚ) :=
  (lits ['C', 'I'] s.data).bind fun l1 =>
  (scanInt l1).bind fun p1 =>
  (lit ':' p1.2).bind fun l2 =>
  (lits ['I', 'D'] (skipWs l2)).bind fun l3 =>
  (lit '=' l3).bind fun l4 =>
  (scanInt l4).bind fun p2 =>
  (scanFloat p2.2).map fun p3 => (p2.1, p3.1)

/-- Embedding of `sscanf(buffer, " Node %*d : ID = %d %f ", &id, &value) == 2`
(`simSwitch.c` line 201).  The trailing whitespace directive of the format
cannot fail and stores nothing, so it is omitted. -/
def sscanfNode (s : String) : Option (Int × ℚ) :=
  (lits ['N', 'o', 'd', 'e'] (skipWs s.data)).bind fun l1 =>
  (scanInt l1).bind fun p1 =>
  (lit ':' (skipWs p1.2)).bind fun l2 =>
  (lits ['I', 'D'] (skipWs l2)).bind fun l3 =>
  (lit '=' (skipWs l3)).bind fun l4 =>
  (scanInt l4).bind fun p2 =>
  (scanFloat p2.2).map fun p3 => (p2.1, p3.1)

/-! ### Rendering of numbers by `fprintf` -/

/-- Decimal digits of `n`, most significant first (fuel-structural model of
`printf("%d")` for nonnegative values; the fuel `n + 1` always suffices). -/
def natChars : Nat → Nat → List Char
  | 0, _ => []
  | fuel + 1, n =>
    if n < 10 then [Char.ofNat (48 + n)]
    else natChars fuel (n / 10) ++ [Char.ofNat (48 + n % 10)]

/-- Rendering of a nonnegative integer by `printf("%d")`. -/
def natToStr (n : Nat) : String := String.mk (natChars (n + 1) n)

/-- Rendering of a C `int` by `printf("%d")`. -/
def intToStr (i : Int) : String :=
  if i < 0 then String.mk ('-' :: natChars (i.natAbs + 1) i.natAbs)
  else natToStr i.toNat

example : natToStr 123 = "123" := by decide
example : intToStr (-1) = "-1" := by decide
example : sscanfCI ("CI 12: ID=7 .5") = some (7, mkRat 1 2) := by decide
example : sscanfCI ("CI 12: ID=-8 0.25") = some (-8, mkRat 1 4) := by decide
example : sscanfCI ("# comment") = none := by decide
example : sscanfCI ("Node 0: ID=2 .5") = none := by decide
example : sscanfNode ("Node 0: ID=2 0.75") = some (2, mkRat 3 4) := by decide
example : sscanfNode ("  Node  3 :  ID = 10  1.5e1 trailing") = some (10, mkRat 15 1) := by decide
example : sscanfNode ("CI 0: ID=1 .5") = none := by decide
example : scanFloat ("2.5E-1").data = some (mkRat 1 4, []) := by decide
example : (mkRat 1 2 : ℚ) = 1 / 2 := by norm_num [Rat.mkRat_eq_div]

/-! ### The network model -/

/-- An internal AND node of the AIG: its identifier, fanin identifiers and
edge polarities, as exposed by the collaborators of spec §6. -/
structure Gate where
  gid : Nat
  f0 : Nat
  c0 : Bool
  f1 : Nat
  c1 : Bool
deriving DecidableEq

/-- A combinational network as seen through the collaborator interface of
`simSwitch.c`: `cis` lists the combinational-input identifiers in
`Abc_NtkForEachCi` enumeration order, `gates` the internal AND nodes in
the dependency (DFS) order returned by `Abc_AigDfs(pNtk, 1, 0)`, and
`objNumMax` is the value of `Abc_NtkObjNumMax`. -/
structure Ntk where
  cis : List Nat
  gates : List Gate
  objNumMax : Nat
deriving DecidableEq

/-! ### The persistence writer (`Sim_NtkWriteSwitchingTemplate`, lines 39-99) -/

/-- One line of the CI block, `fprintf(pFile, "CI %d: ID=%d .5\n", i,
pNode->Id - 1)` without its newline (`simSwitch.c` line 80). -/
def mkCiLine (i : Nat) (id : Int) : String :=
  "CI " ++ natToStr i ++ ": ID=" ++ intToStr id ++ " .5"

/-- One line of the node block, `fprintf(pFile, "Node %d: ID=%d .5\n", i,
pNode->Id - 1)` without its newline (`simSwitch.c` line 89). -/
def mkNodeLine (i : Nat) (id : Int) : String :=
  "Node " ++ natToStr i ++ ": ID=" ++ intToStr id ++ " .5"

/-- Combinational-input template lines (`simSwitch.c` lines 78-81), for
each CI in enumeration order, `i` starting at 0. -/
def ciTemplateLines : Nat → List Nat → List String
  | _, [] => []
  | i, cid :: rest => mkCiLine i ((cid : Int) - 1) :: ciTemplateLines (i + 1) rest

/-- Internal-node template lines (`simSwitch.c` lines 86-90), in
`Abc_AigDfs` order. -/
def nodeTemplateLines : Nat → List Gate → List String
  | _, [] => []
  | i, g :: rest => mkNodeLine i ((g.gid : Int) - 1) :: nodeTemplateLines (i + 1) rest

/-- Embedding of `Sim_NtkWriteSwitchingTemplate` (`simSwitch.c` lines
39-99): the lines of the `<baseName>.switch` file it writes - four header
comment lines plus the blank line produced by the `"# Nodes: %d\n\n"`
format, then one `CI` line per combinational input, then one `Node` line
per internal node.  (File naming and the I/O failure paths, on which no
file contents are produced at all, are outside the model.) -/
def Sim_NtkWriteSwitchingTemplate (ntk : Ntk) : List String :=
  ["# Switching Activities Template File",
   "# Format: ID [Switching Value Placeholder]",
   "# CIs: " ++ natToStr ntk.cis.length,
   "# Nodes: " ++ natToStr ntk.objNumMax,
   ""]
  ++ ciTemplateLines 0 ntk.cis ++ nodeTemplateLines 0 ntk.gates

/-! ### The persistence loader (`Sim_NtkLoadSwitching`, lines 111-255) -/

/-- Failure modes inside the loader: `cleanErr` is the C code's explicit
error path (report, free the arrays, return `NULL`); `ub` marks a point
where the C code's behaviour is undefined - an out-of-bounds array access
or a read of uninitialised memory. -/
inductive Fail where
  | cleanErr
  | ub
deriving DecidableEq

/-- Outcome of one of the loader's read loops: a failure, or the final
`buffer` contents, unread lines and filled value array. -/
inductive LoopRes where
  | fail (e : Fail)
  | next (buf : Option String) (stream : List String) (arr : List (Option ℚ))
deriving DecidableEq

/-- Result of `Sim_NtkLoadSwitching`: `template f` is the `fileName ==
NULL` path (the template file `f` is written and `NULL` is returned),
`err` a clean `NULL` return, `ub` reached undefined behaviour, and `ok v`
a returned Switching Vector (the `float` view of `Vec_IntStart(nNodes)`,
indexed by live node identifier, zero-initialised). -/
inductive LoadRes where
  | template (f : List String)
  | err
  | ub
  | ok (v : List ℚ)
deriving DecidableEq

/-- A line skipped by the header loop (`simSwitch.c` line 156): first
character `#`, or a bare newline - the empty line of this model. -/
def isSkipLine (s : String) : Bool :=
  match s.data with
  | [] => true
  | c :: _ => c == '#'

/-- Header skipping (`simSwitch.c` lines 153-158): `fgets` lines into
`buffer` while they are comments or blank; the first other line stays in
the buffer.  Returns the final buffer (`none` when no line was ever read,
i.e. the C `buffer` is still uninitialised) and the unread lines. -/
def skipHeader : Option String → List String → Option String × List String
  | buf, [] => (buf, [])
  | _, l :: rest =>
    if isSkipLine l then skipHeader (some l) rest
    else (some l, rest)

/-- The CI reading loop (`simSwitch.c` lines 161-187).  Arguments:
iterations left, the loop index `i`, `nCis`, the `buffer` contents
(`none` = uninitialised), the unread lines, and the `Ci_Switching` array
(`none` entries = uninitialised `malloc` memory).  Mirrors the C control
flow: parse the buffer, store at the file-supplied identifier (the store
is unchecked in C, so an out-of-range identifier is undefined behaviour),
then `fgets` the next line, tolerating end-of-file on the last iteration
(`i < nCis - 1`, line 179) with the buffer left stale. -/
def readCiLoop : Nat → Nat → Nat → Option String → List String → List (Option ℚ) → LoopRes
  | 0, _, _, buf, stream, arr => .next buf stream arr
  | rem + 1, i, nCis, buf, stream, arr =>
    match buf with
    | none => .fail .ub
    | some line =>
      match sscanfCI line with
      | none => .fail .cleanErr
      | some (id, v) =>
        if 0 ≤ id ∧ id.toNat < arr.length then
          match stream with
          | [] =>
            if (i : Int) < (nCis : Int) - 1 then .fail .cleanErr
            else readCiLoop rem (i + 1) nCis buf [] (arr.set id.toNat (some v))
          | l :: rest =>
            readCiLoop rem (i + 1) nCis (some l) rest (arr.set id.toNat (some v))
        else .fail .ub

/-- The node reading loop (`simSwitch.c` lines 191-221), iterating over
the `Abc_AigDfs` node list; identical control flow to the CI loop except
that the end-of-file tolerance (line 213) compares the loop index against
the indeterminate `nNodes` value (see the file comment about line 123). -/
def readNodeLoop : List Gate → Nat → Int → Option String → List String → List (Option ℚ) → LoopRes
  | [], _, _, buf, stream, arr => .next buf stream arr
  | _ :: gs, i, nNodes, buf, stream, arr =>
    match buf with
    | none => .fail .ub
    | some line =>
      match sscanfNode line with
      | none => .fail .cleanErr
      | some (id, v) =>
        if 0 ≤ id ∧ id.toNat < arr.length then
          match stream with
          | [] =>
            if (i : Int) < nNodes - 1 then .fail .cleanErr
            else readNodeLoop gs (i + 1) nNodes buf [] (arr.set id.toNat (some v))
          | l :: rest =>
            readNodeLoop gs (i + 1) nNodes (some l) rest (arr.set id.toNat (some v))
        else .fail .ub

/-- The CI assignment loop (`simSwitch.c` lines 236-239):
`pSwitching[pNode->Id] = Ci_Switching[i]` for each CI in enumeration
order.  Reading an uninitialised cell or writing outside `vSwitching`
(whose length is the indeterminate `nNodes`) is undefined behaviour,
returned as `none`. -/
def assignCis : List Nat → Nat → List (Option ℚ) → List ℚ → Option (List ℚ)
  | [], _, _, v => some v
  | cid :: rest, i, ciArr, v =>
    match ciArr.get? i with
    | some (some q) =>
      if cid < v.length then assignCis rest (i + 1) ciArr (v.set cid q)
      else none
    | _ => none

/-- The node assignment loop (`simSwitch.c` lines 242-248):
`pSwitching[pNode->Id] = Node_Switching[pNode->Id]`; both the read and
the write are unchecked in C, so out-of-range identifiers and
uninitialised cells are undefined behaviour, returned as `none`. -/
def assignNodes : List Gate → List (Option ℚ) → List ℚ → Option (List ℚ)
  | [], _, v => some v
  | g :: rest, nodeArr, v =>
    match nodeArr.get? g.gid with
    | some (some q) =>
      if g.gid < v.length then assignNodes rest nodeArr (v.set g.gid q)
      else none
    | _ => none

/-- The body of `Sim_NtkLoadSwitching` once the file is open, on the
file's lines (`simSwitch.c` lines 140-254).  `nNodes` is the indeterminate
`int` of line 123; `malloc(nNodes * sizeof(float))` with negative `nNodes`
requests an enormous allocation, modelled as the allocation-failure path
of lines 145-150. -/
def loadFromLines (ntk : Ntk) (nNodes : Int) (lines : List String) : LoadRes :=
  if nNodes < 0 then .err
  else
    match skipHeader none lines with
    | (buf, stream) =>
      match readCiLoop ntk.cis.length 0 ntk.cis.length buf stream
          (List.replicate ntk.cis.length none) with
      | .fail .cleanErr => .err
      | .fail .ub => .ub
      | .next buf2 stream2 ciArr =>
        match readNodeLoop ntk.gates 0 nNodes buf2 stream2
            (List.replicate nNodes.toNat none) with
        | .fail .cleanErr => .err
        | .fail .ub => .ub
        | .next _ _ nodeArr =>
          match assignCis ntk.cis 0 ciArr (List.replicate nNodes.toNat 0) with
          | none => .ub
          | some v1 =>
            match assignNodes ntk.gates nodeArr v1 with
            | none => .ub
            | some v2 => .ok v2

/-- Embedding of `Sim_NtkLoadSwitching` (`simSwitch.c` lines 111-255):
`fileName = none` is the `NULL` file-name path (write a template for the
network, return `NULL`); `fs` models the file system seen by `fopen`,
giving the lines of each existing file. -/
def Sim_NtkLoadSwitching (ntk : Ntk) (nNodes : Int) (fileName : Option String)
    (fs : String → Option (List String)) : LoadRes :=
  match fileName with
  | none => .template (Sim_NtkWriteSwitchingTemplate ntk)
  | some fn =>
    match fs fn with
    | none => .err
    | some lines => loadFromLines ntk nNodes lines

/-- Example network of spec §8: two combinational inputs (identifiers 1
and 2) and one internal AND node (identifier 3). -/
def exNtk : Ntk := ⟨[1, 2], [⟨3, 1, false, 2, false⟩], 5⟩

example : Sim_NtkWriteSwitchingTemplate exNtk =
    ["# Switching Activities Template File",
     "# Format: ID [Switching Value Placeholder]",
     "# CIs: 2",
     "# Nodes: 5",
     "",
     "CI 0: ID=0 .5",
     "CI 1: ID=1 .5",
     "Node 0: ID=2 .5"] := by decide

/-- Claim C6: an absent (`NULL`) file name is not an error
(`simSwitch.c` lines 124-130): the loader invokes the template writer on
the network and returns no result (`NULL`, the `template` outcome). -/
theorem C6_null_filename_writes_template (ntk : Ntk) (nNodes : Int)
    (fs : String → Option (List String)) :
    Sim_NtkLoadSwitching ntk nNodes none fs
      = .template (Sim_NtkWriteSwitchingTemplate ntk) := rfl

/-- Network with one combinational input (identifier 1) and no internal
nodes, used to exhibit the unchecked identifier store. -/
def c2Ntk : Ntk := ⟨[1], [], 3⟩

/-- A switching file whose `CI` record claims the out-of-range identifier
7 for a network with a single combinational input. -/
def c2File : List String := ["CI 0: ID=7 .5"]

/-- Claim C2 fails on the code: `Sim_NtkLoadSwitching` performs
`Ci_Switching[id] = value` (`simSwitch.c` line 178) without any bounds
check on the file-supplied identifier, so a file whose `ID=` field is out
of range causes an out-of-bounds write (undefined behaviour) instead of a
clean hard failure. -/
theorem C2_out_of_range_id_is_oob_write :
    Sim_NtkLoadSwitching c2Ntk 5 (some ("t.switch")) (fun _ => some c2File)
      = .ub := by decide

/-- Network with one combinational input (identifier 1) and two internal
nodes (identifiers 2 and 3). -/
def c7Ntk : Ntk := ⟨[1], [⟨2, 1, false, 1, true⟩, ⟨3, 2, false, 1, false⟩], 4⟩

/-- A switching file for `c7Ntk` truncated before the expected record
count: it has the single `CI` record but only one of the two required
`Node` records. -/
def c7File : List String := ["# header", "CI 0: ID=0 .5", "Node 0: ID=0 .9"]

/-- Claim C7 fails on the code: a file truncated before the expected node
record count is not guaranteed a clean abort.  The end-of-file check of
`simSwitch.c` line 213 compares the loop index against the indeterminate
`nNodes` of line 123 instead of the node count; here (with `nNodes = 1`)
the final `fgets` failure is tolerated, the stale buffer is parsed a
second time for the second node, and the loader runs on into undefined
behaviour instead of the hard failure the claim requires. -/
theorem C7_truncated_file_not_clean :
    Sim_NtkLoadSwitching c7Ntk 1 (some ("t.switch")) (fun _ => some c7File)
      = .ub := by decide

theorem c1_skipHeader_eq :
    skipHeader none (Sim_NtkWriteSwitchingTemplate exNtk)
      = (some ("CI 0: ID=0 .5"), ["CI 1: ID=1 .5", "Node 0: ID=2 .5"]) := by decide

theorem c1_ciLoop_eq :
    readCiLoop 2 0 2 (some ("CI 0: ID=0 .5")) ["CI 1: ID=1 .5", "Node 0: ID=2 .5"]
        (List.replicate 2 none)
      = .next (some ("Node 0: ID=2 .5")) [] [some (mkRat 1 2), some (mkRat 1 2)] := by
  decide

theorem c1_nodeParse_eq : sscanfNode ("Node 0: ID=2 .5") = some (2, mkRat 1 2) := by
  decide

/-- Claim C1 fails on the code: round-trip persistence does not hold.  For
the spec §8 network, loading the very template just written for it never
yields a Switching Vector, whatever value the indeterminate `nNodes` of
`simSwitch.c` line 123 takes: for `nNodes < 0` the huge `malloc` fails;
for `0 ≤ nNodes ≤ 2` the unchecked store `Node_Switching[2]` is out of
bounds; and for `nNodes ≥ 3` the template has no line after its last
`Node` record, so the final `fgets` returns `NULL` and the mistaken
`i < nNodes - 1` check of line 213 reports a (spurious) unexpected
end-of-file.  The loader returns `NULL` or hits undefined behaviour, never
the written values. -/
theorem C1_roundtrip_fails (nNodes : Int) :
    Sim_NtkLoadSwitching exNtk nNodes (some ("ex.switch"))
        (fun _ => some (Sim_NtkWriteSwitchingTemplate exNtk)) = .err
    ∨ Sim_NtkLoadSwitching exNtk nNodes (some ("ex.switch"))
        (fun _ => some (Sim_NtkWriteSwitchingTemplate exNtk)) = .ub := by
  have hmain : Sim_NtkLoadSwitching exNtk nNodes (some ("ex.switch"))
      (fun _ => some (Sim_NtkWriteSwitchingTemplate exNtk))
      = loadFromLines exNtk nNodes (Sim_NtkWriteSwitchingTemplate exNtk) := rfl
  rw [hmain]
  unfold loadFromLines
  by_cases hneg : nNodes < 0
  · left
    rw [if_pos hneg]
  · rw [if_neg hneg]
    have hlen : exNtk.cis.length = 2 := rfl
    have hg : exNtk.gates = [⟨3, 1, false, 2, false⟩] := rfl
    simp only [c1_skipHeader_eq, hlen, c1_ciLoop_eq, hg, readNodeLoop,
      c1_nodeParse_eq, List.length_replicate, Int.toNat_ofNat, Nat.cast_zero]
    by_cases h2 : 2 < nNodes.toNat
    · have h0 : (0 : Int) < nNodes - 1 := by omega
      rw [if_pos ⟨by norm_num, h2⟩, if_pos h0]
      left
      rfl
    · rw [if_neg (fun hc => h2 hc.2)]
      right
      rfl

/-! ### Rendered digits parse back to the same number -/

/-- Whether a character list starts with a decimal digit. -/
def headIsDigit : List Char → Bool
  | [] => false
  | c :: _ => c.isDigit

theorem digit_isDigit (d : Nat) (hd : d < 10) :
    (Char.ofNat (48 + d)).isDigit = true := by
  interval_cases d <;> decide

theorem digit_toNat (d : Nat) (hd : d < 10) :
    (Char.ofNat (48 + d)).toNat - 48 = d := by
  interval_cases d <;> decide

theorem natChars_all_digits (f : Nat) :
    ∀ n, ∀ c ∈ natChars f n, c.isDigit = true := by
  induction f with
  | zero => intro n c hc; simp [natChars] at hc
  | succ f ih =>
    intro n c hc
    by_cases h : n < 10
    · simp only [natChars, if_pos h, List.mem_singleton] at hc
      subst hc
      exact digit_isDigit n h
    · simp only [natChars, if_neg h, List.mem_append, List.mem_singleton] at hc
      rcases hc with hc | hc
      · exact ih (n / 10) c hc
      · subst hc
        exact digit_isDigit (n % 10) (Nat.mod_lt n (by norm_num))

theorem natChars_ne_nil (f n : Nat) (h : n < f) : natChars f n ≠ [] := by
  cases f with
  | zero => omega
  | succ f => by_cases h10 : n < 10 <;> simp [natChars, h10]

theorem goDigits_stop (acc : Nat) (l : List Char) (h : headIsDigit l = false) :
    goDigits acc l = (acc, l) := by
  cases l with
  | nil => rfl
  | cons c l2 =>
    simp only [headIsDigit] at h
    simp [goDigits, h]

theorem goDigits_digits (D : List Char) (hD : ∀ c ∈ D, c.isDigit = true) :
    ∀ acc rest, headIsDigit rest = false →
      goDigits acc (D ++ rest)
        = (D.foldl (fun a c => 10 * a + (c.toNat - 48)) acc, rest) := by
  induction D with
  | nil =>
    intro acc rest hrest
    simpa using goDigits_stop acc rest hrest
  | cons c D ih =>
    intro acc rest hrest
    have hc : c.isDigit = true := hD c (List.mem_cons_self c D)
    have hD2 : ∀ x ∈ D, x.isDigit = true :=
      fun x hx => hD x (List.mem_cons_of_mem c hx)
    simp only [List.cons_append, goDigits, hc, if_true, List.foldl_cons]
    exact ih hD2 _ rest hrest

theorem natChars_foldl (f : Nat) :
    ∀ n acc, n < f →
      (natChars f n).foldl (fun a c => 10 * a + (c.toNat - 48)) acc
        = acc * 10 ^ (natChars f n).length + n := by
  induction f with
  | zero => intro n acc h; omega
  | succ f ih =>
    intro n acc h
    by_cases h10 : n < 10
    · simp only [natChars, if_pos h10, List.foldl_cons, List.foldl_nil,
        List.length_singleton, pow_one]
      rw [digit_toNat n h10]
      ring
    · have hdiv : n / 10 < f := by omega
      simp only [natChars, if_neg h10, List.foldl_append, List.foldl_cons,
        List.foldl_nil, List.length_append, List.length_singleton]
      rw [ih (n / 10) acc hdiv, digit_toNat (n % 10) (Nat.mod_lt n (by norm_num))]
      have hsplit : 10 * (n / 10) + n % 10 = n := by omega
      rw [pow_succ]
      set P : Nat := 10 ^ (natChars f (n / 10)).length with hP
      ring_nf
      omega

theorem isWsC_eq_false_of_isDigit (c : Char) (h : c.isDigit = true) :
    isWsC c = false := by
  by_contra hw
  rw [Bool.not_eq_false] at hw
  simp only [isWsC, Bool.or_eq_true, beq_iff_eq] at hw
  rcases hw with ((((h1 | h1) | h1) | h1) | h1) | h1 <;> subst h1 <;>
    exact absurd h (by decide)

theorem skipWs_of_headIsDigit (l : List Char) (h : headIsDigit l = true) :
    skipWs l = l := by
  cases l with
  | nil => rfl
  | cons c l2 =>
    simp only [headIsDigit] at h
    simp [skipWs, isWsC_eq_false_of_isDigit c h]

theorem skipWs_space (l : List Char) : skipWs (' ' :: l) = skipWs l := by
  simp [skipWs, isWsC]

theorem headIsDigit_natChars_append (f n : Nat) (h : n < f) (rest : List Char) :
    headIsDigit (natChars f n ++ rest) = true := by
  rcases hne : natChars f n with _ | ⟨c, D⟩
  · exact absurd hne (natChars_ne_nil f n h)
  · have hc : c.isDigit = true :=
      natChars_all_digits f n c (by rw [hne]; exact List.mem_cons_self c D)
    simp [headIsDigit, hc]

theorem scanDigits_natChars (f n : Nat) (h : n < f) (rest : List Char)
    (hrest : headIsDigit rest = false) :
    scanDigits (natChars f n ++ rest) = some (n, rest) := by
  rcases hne : natChars f n with _ | ⟨c, D⟩
  · exact absurd hne (natChars_ne_nil f n h)
  · have hmem : c ∈ natChars f n := by rw [hne]; exact List.mem_cons_self c D
    have hc : c.isDigit = true := natChars_all_digits f n c hmem
    have hD : ∀ x ∈ D, x.isDigit = true := by
      intro x hx
      exact natChars_all_digits f n x (by rw [hne]; exact List.mem_cons_of_mem c hx)
    have hv := natChars_foldl f n 0 h
    rw [hne] at hv
    simp only [List.foldl_cons, Nat.mul_zero, Nat.zero_add, Nat.zero_mul] at hv
    simp only [List.cons_append, scanDigits, hc, if_true]
    rw [goDigits_digits D hD _ rest hrest, hv]

theorem scanInt_natChars (f n : Nat) (h : n < f) (rest : List Char)
    (hrest : headIsDigit rest = false) :
    scanInt (natChars f n ++ rest) = some ((n : Int), rest) := by
  have hd : headIsDigit (natChars f n ++ rest) = true :=
    headIsDigit_natChars_append f n h rest
  have hskip : skipWs (natChars f n ++ rest) = natChars f n ++ rest :=
    skipWs_of_headIsDigit _ hd
  have hsd := scanDigits_natChars f n h rest hrest
  rw [scanInt, hskip]
  rcases hne : natChars f n with _ | ⟨c, D⟩
  · exact absurd hne (natChars_ne_nil f n h)
  · have hc : c.isDigit = true :=
      natChars_all_digits f n c (by rw [hne]; exact List.mem_cons_self c D)
    have hminus : ¬ c = '-' := fun he => by subst he; exact absurd hc (by decide)
    have hplus : ¬ c = '+' := fun he => by subst he; exact absurd hc (by decide)
    rw [hne] at hsd
    simp only [List.cons_append] at hsd ⊢
    simp only [if_neg hminus, if_neg hplus, hsd]
    rfl

theorem scanInt_space (l : List Char) : scanInt (' ' :: l) = scanInt l := by
  rw [scanInt, scanInt, skipWs_space]

theorem skipWs_not_ws (c : Char) (l : List Char) (h : isWsC c = false) :
    skipWs (c :: l) = c :: l := by
  simp [skipWs, h]

theorem lit_same (c : Char) (l : List Char) : lit c (c :: l) = some l := by
  simp [lit]

theorem lits2 (a b : Char) (l : List Char) : lits [a, b] (a :: b :: l) = some l := by
  simp [lits, lit]

theorem lits4 (a b c d : Char) (l : List Char) :
    lits [a, b, c, d] (a :: b :: c :: d :: l) = some l := by
  simp [lits, lit]

theorem intToStr_ofNat (m : Nat) : intToStr (m : Int) = natToStr m := by
  unfold intToStr
  rw [if_neg (by omega : ¬ (m : Int) < 0)]
  simp

theorem mkCiLine_data (i m : Nat) :
    (mkCiLine i (m : Int)).data
      = 'C' :: 'I' :: ' ' :: (natChars (i + 1) i
          ++ ':' :: ' ' :: 'I' :: 'D' :: '='
            :: (natChars (m + 1) m ++ [' ', '.', '5'])) := by
  have h1 : ("CI ").data = ['C', 'I', ' '] := rfl
  have h2 : (": ID=").data = [':', ' ', 'I', 'D', '='] := rfl
  have h3 : (" .5").data = [' ', '.', '5'] := rfl
  have h4 : ∀ l : List Char, (String.mk l).data = l := fun _ => rfl
  simp [mkCiLine, intToStr_ofNat, natToStr, String.data_append, h1, h2, h3, h4]

theorem mkNodeLine_data (i m : Nat) :
    (mkNodeLine i (m : Int)).data
      = 'N' :: 'o' :: 'd' :: 'e' :: ' ' :: (natChars (i + 1) i
          ++ ':' :: ' ' :: 'I' :: 'D' :: '='
            :: (natChars (m + 1) m ++ [' ', '.', '5'])) := by
  have h1 : ("Node ").data = ['N', 'o', 'd', 'e', ' '] := rfl
  have h2 : (": ID=").data = [':', ' ', 'I', 'D', '='] := rfl
  have h3 : (" .5").data = [' ', '.', '5'] := rfl
  have h4 : ∀ l : List Char, (String.mk l).data = l := fun _ => rfl
  simp [mkNodeLine, intToStr_ofNat, natToStr, String.data_append, h1, h2, h3, h4]

theorem scanFloat_space_dot5 : scanFloat [' ', '.', '5'] = some (mkRat 1 2, []) := by
  decide

/-- A rendered `CI` line parses back under the `CI %*d: ID=%d %f` format to
exactly the identifier it carries and the value 1/2, for every enumeration
index - the index is scanned but discarded. -/
theorem sscanfCI_mkCiLine (i m : Nat) :
    sscanfCI (mkCiLine i (m : Int)) = some ((m : Int), mkRat 1 2) := by
  have hr1 : headIsDigit (':' :: ' ' :: 'I' :: 'D' :: '='
      :: (natChars (m + 1) m ++ [' ', '.', '5'])) = false := by
    simp only [headIsDigit]
    decide
  have hr2 : headIsDigit ([' ', '.', '5'] : List Char) = false := by decide
  have hint1 := scanInt_natChars (i + 1) i (by omega)
    (':' :: ' ' :: 'I' :: 'D' :: '=' :: (natChars (m + 1) m ++ [' ', '.', '5'])) hr1
  have hint2 := scanInt_natChars (m + 1) m (by omega) [' ', '.', '5'] hr2
  have hI : skipWs ('I' :: 'D' :: '=' :: (natChars (m + 1) m ++ [' ', '.', '5']))
      = 'I' :: 'D' :: '=' :: (natChars (m + 1) m ++ [' ', '.', '5']) :=
    skipWs_not_ws _ _ (by decide)
  unfold sscanfCI
  rw [mkCiLine_data i m]
  rw [lits2]
  simp only [Option.some_bind]
  rw [scanInt_space, hint1]
  simp only [Option.some_bind]
  rw [lit_same]
  simp only [Option.some_bind]
  rw [skipWs_space, hI, lits2]
  simp only [Option.some_bind]
  rw [lit_same]
  simp only [Option.some_bind]
  rw [hint2]
  simp only [Option.some_bind]
  rw [scanFloat_space_dot5]
  rfl

/-- A rendered `Node` line parses back under the ` Node %*d : ID = %d %f `
format to exactly the identifier it carries and the value 1/2, for every
enumeration index. -/
theorem sscanfNode_mkNodeLine (i m : Nat) :
    sscanfNode (mkNodeLine i (m : Int)) = some ((m : Int), mkRat 1 2) := by
  have hr1 : headIsDigit (':' :: ' ' :: 'I' :: 'D' :: '='
      :: (natChars (m + 1) m ++ [' ', '.', '5'])) = false := by
    simp only [headIsDigit]
    decide
  have hr2 : headIsDigit ([' ', '.', '5'] : List Char) = false := by decide
  have hint1 := scanInt_natChars (i + 1) i (by omega)
    (':' :: ' ' :: 'I' :: 'D' :: '=' :: (natChars (m + 1) m ++ [' ', '.', '5'])) hr1
  have hint2 := scanInt_natChars (m + 1) m (by omega) [' ', '.', '5'] hr2
  have hN : skipWs ('N' :: 'o' :: 'd' :: 'e' :: ' ' :: (natChars (i + 1) i
      ++ ':' :: ' ' :: 'I' :: 'D' :: '='
        :: (natChars (m + 1) m ++ [' ', '.', '5'])))
      = 'N' :: 'o' :: 'd' :: 'e' :: ' ' :: (natChars (i + 1) i
      ++ ':' :: ' ' :: 'I' :: 'D' :: '='
        :: (natChars (m + 1) m ++ [' ', '.', '5'])) :=
    skipWs_not_ws _ _ (by decide)
  have hColon : skipWs (':' :: ' ' :: 'I' :: 'D' :: '='
      :: (natChars (m + 1) m ++ [' ', '.', '5']))
      = ':' :: ' ' :: 'I' :: 'D' :: '=' :: (natChars (m + 1) m ++ [' ', '.', '5']) :=
    skipWs_not_ws _ _ (by decide)
  have hI : skipWs ('I' :: 'D' :: '=' :: (natChars (m + 1) m ++ [' ', '.', '5']))
      = 'I' :: 'D' :: '=' :: (natChars (m + 1) m ++ [' ', '.', '5']) :=
    skipWs_not_ws _ _ (by decide)
  have hEq : skipWs ('=' :: (natChars (m + 1) m ++ [' ', '.', '5']))
      = '=' :: (natChars (m + 1) m ++ [' ', '.', '5']) :=
    skipWs_not_ws _ _ (by decide)
  unfold sscanfNode
  rw [mkNodeLine_data i m]
  rw [hN, lits4]
  simp only [Option.some_bind]
  rw [scanInt_space, hint1]
  simp only [Option.some_bind]
  rw [hColon, lit_same]
  simp only [Option.some_bind]
  rw [skipWs_space, hI, lits2]
  simp only [Option.some_bind]
  rw [hEq, lit_same]
  simp only [Option.some_bind]
  rw [hint2]
  simp only [Option.some_bind]
  rw [scanFloat_space_dot5]
  rfl

theorem ciTemplateLines_length (cids : List Nat) :
    ∀ i, (ciTemplateLines i cids).length = cids.length := by
  induction cids with
  | nil => intro i; rfl
  | cons c rest ih => intro i; simp [ciTemplateLines, ih]

theorem nodeTemplateLines_length (gs : List Gate) :
    ∀ i, (nodeTemplateLines i gs).length = gs.length := by
  induction gs with
  | nil => intro i; rfl
  | cons g rest ih => intro i; simp [nodeTemplateLines, ih]

theorem ciTemplateLines_get? (cids : List Nat) :
    ∀ i k, ∀ h : k < cids.length,
      (ciTemplateLines i cids).get? k
        = some (mkCiLine (i + k) ((cids.get ⟨k, h⟩ : Int) - 1)) := by
  induction cids with
  | nil => intro i k h; simp at h
  | cons c rest ih =>
    intro i k h
    cases k with
    | zero => simp [ciTemplateLines]
    | succ k2 =>
      have h2 : k2 < rest.length := by simpa using h
      simp only [ciTemplateLines, List.get?_cons_succ, List.get_cons_succ]
      rw [ih (i + 1) k2 h2]
      simp only [show i + 1 + k2 = i + (k2 + 1) from by omega]

theorem nodeTemplateLines_get? (gs : List Gate) :
    ∀ i k, ∀ h : k < gs.length,
      (nodeTemplateLines i gs).get? k
        = some (mkNodeLine (i + k) (((gs.get ⟨k, h⟩).gid : Int) - 1)) := by
  induction gs with
  | nil => intro i k h; simp at h
  | cons g rest ih =>
    intro i k h
    cases k with
    | zero => simp [nodeTemplateLines]
    | succ k2 =>
      have h2 : k2 < rest.length := by simpa using h
      simp only [nodeTemplateLines, List.get?_cons_succ, List.get_cons_succ]
      rw [ih (i + 1) k2 h2]
      simp only [show i + 1 + k2 = i + (k2 + 1) from by omega]

/-- Claim C5: after the header (four comment lines and one blank line), the
written template contains exactly one line per combinational input, the
`k`-th being `CI k: ID=<cis k - 1> .5`, followed by exactly one line per
internal node in the `Abc_AigDfs` order used for simulation, the `k`-th
being `Node k: ID=<gid k - 1> .5`: the on-disk identifier is the live
identifier minus one, and the placeholder field parses to the value 1/2
under the loader's own record grammar. -/
theorem C5_template_format (ntk : Ntk)
    (hci : ∀ cid ∈ ntk.cis, 1 ≤ cid) (hgates : ∀ g ∈ ntk.gates, 1 ≤ g.gid) :
    (Sim_NtkWriteSwitchingTemplate ntk).length
        = 5 + ntk.cis.length + ntk.gates.length
    ∧ (∀ k, ∀ h : k < ntk.cis.length,
        (Sim_NtkWriteSwitchingTemplate ntk).get? (5 + k)
            = some (mkCiLine k ((ntk.cis.get ⟨k, h⟩ : Int) - 1))
          ∧ sscanfCI (mkCiLine k ((ntk.cis.get ⟨k, h⟩ : Int) - 1))
              = some ((ntk.cis.get ⟨k, h⟩ : Int) - 1, mkRat 1 2))
    ∧ (∀ k, ∀ h : k < ntk.gates.length,
        (Sim_NtkWriteSwitchingTemplate ntk).get? (5 + ntk.cis.length + k)
            = some (mkNodeLine k (((ntk.gates.get ⟨k, h⟩).gid : Int) - 1))
          ∧ sscanfNode (mkNodeLine k (((ntk.gates.get ⟨k, h⟩).gid : Int) - 1))
              = some (((ntk.gates.get ⟨k, h⟩).gid : Int) - 1, mkRat 1 2)) := by
  have hHlen : (["# Switching Activities Template File",
      "# Format: ID [Switching Value Placeholder]",
      "# CIs: " ++ natToStr ntk.cis.length,
      "# Nodes: " ++ natToStr ntk.objNumMax,
      ""] : List String).length = 5 := rfl
  refine ⟨?_, ?_, ?_⟩
  · unfold Sim_NtkWriteSwitchingTemplate
    simp [List.length_append, ciTemplateLines_length, nodeTemplateLines_length]
    omega
  · intro k h
    constructor
    · unfold Sim_NtkWriteSwitchingTemplate
      rw [List.append_assoc, List.get?_append_right (by simp [hHlen] : _ ≤ 5 + k)]
      rw [hHlen, Nat.add_sub_cancel_left]
      rw [List.get?_append (by rw [ciTemplateLines_length]; exact h)]
      rw [ciTemplateLines_get? ntk.cis 0 k h]
      simp
    · have h1 : 1 ≤ ntk.cis.get ⟨k, h⟩ := hci _ (ntk.cis.get_mem k h)
      have hcast : ((ntk.cis.get ⟨k, h⟩ : Int) - 1)
          = ((ntk.cis.get ⟨k, h⟩ - 1 : ℕ) : Int) := by omega
      rw [hcast, sscanfCI_mkCiLine]
  · intro k h
    constructor
    · unfold Sim_NtkWriteSwitchingTemplate
      rw [List.append_assoc, List.get?_append_right
        (by simp only [hHlen]; omega : _ ≤ 5 + ntk.cis.length + k)]
      rw [hHlen, show 5 + ntk.cis.length + k - 5 = ntk.cis.length + k from by omega]
      rw [List.get?_append_right (by rw [ciTemplateLines_length]; omega)]
      rw [ciTemplateLines_length, Nat.add_sub_cancel_left]
      rw [nodeTemplateLines_get? ntk.gates 0 k h]
      simp
    · have h1 : 1 ≤ (ntk.gates.get ⟨k, h⟩).gid := hgates _ (ntk.gates.get_mem k h)
      have hcast : (((ntk.gates.get ⟨k, h⟩).gid : Int) - 1)
          = (((ntk.gates.get ⟨k, h⟩).gid - 1 : ℕ) : Int) := by omega
      rw [hcast, sscanfNode_mkNodeLine]

theorem C5_template_format_witness :
    (Sim_NtkWriteSwitchingTemplate exNtk).length
        = 5 + exNtk.cis.length + exNtk.gates.length
    ∧ (∀ k, ∀ h : k < exNtk.cis.length,
        (Sim_NtkWriteSwitchingTemplate exNtk).get? (5 + k)
            = some (mkCiLine k ((exNtk.cis.get ⟨k, h⟩ : Int) - 1))
          ∧ sscanfCI (mkCiLine k ((exNtk.cis.get ⟨k, h⟩ : Int) - 1))
              = some ((exNtk.cis.get ⟨k, h⟩ : Int) - 1, mkRat 1 2))
    ∧ (∀ k, ∀ h : k < exNtk.gates.length,
        (Sim_NtkWriteSwitchingTemplate exNtk).get? (5 + exNtk.cis.length + k)
            = some (mkNodeLine k (((exNtk.gates.get ⟨k, h⟩).gid : Int) - 1))
          ∧ sscanfNode (mkNodeLine k (((exNtk.gates.get ⟨k, h⟩).gid : Int) - 1))
              = some (((exNtk.gates.get ⟨k, h⟩).gid : Int) - 1, mkRat 1 2)) :=
  C5_template_format exNtk (by decide) (by decide)

/-! ### The simulation path (`Sim_NtkComputeSwitching`, lines 272-308) -/

/-- Modelled from the spec: `SIM_NUM_WORDS(n) = ((n)>>5) + (((n)&31) > 0)`
(macro in `sim.h`, which is not under `src/`; spec §3: "word count =
ceil(patternCount / wordBitWidth)").  `>> 5` is division by 32 and `& 31`
the remainder mod 32. -/
def SIM_NUM_WORDS (n : Nat) : Nat := n / 32 + (if n % 32 > 0 then 1 else 0)

theorem SIM_NUM_WORDS_pos (n : Nat) (h : 1 ≤ n) : 1 ≤ SIM_NUM_WORDS n := by
  unfold SIM_NUM_WORDS
  split_ifs with hm <;> omega

/-- Functional update of the simulation-info store (one word buffer per
node identifier, the model of `vSimInfo`). -/
def updStore (s : Nat → List Nat) (id : Nat) (v : List Nat) : Nat → List Nat :=
  fun j => if j = id then v else s j

/-- Modelled from the spec: `Sim_UtilSimulateNodeOne` (in `simUtils.c`, not
under `src/`) applies the AIG gate semantics, "bitwise AND of two fanin
words, each fanin word optionally bitwise-complemented per edge polarity"
(spec §4.3 and §6), producing the node's buffer from its fanins' buffers. -/
def Sim_UtilSimulateNodeOne (g : Gate) (s : Nat → List Nat) : List Nat :=
  List.zipWith
    (fun a b => (cond g.c0 (compl32 a) a) &&& (cond g.c1 (compl32 b) b))
    (s g.f0) (s g.f1)

/-- The CI pass of `Sim_NtkComputeSwitching` (`simSwitch.c` lines 288-293):
for each CI in enumeration order, fill its buffer with random words
(`Sim_UtilSetRandom`, modelled by the oracle `rand`) and store its
switching activity in the vector. -/
def ciSimPass (rand : Nat → List Nat) (nSimWords : Nat) :
    List Nat → (Nat → List Nat) × List ℚ → (Nat → List Nat) × List ℚ
  | [], sv => sv
  | cid :: rest, (s, v) =>
    let s2 := updStore s cid (rand cid)
    ciSimPass rand nSimWords rest
      (s2, v.set cid (Sim_ComputeSwitching (s2 cid) nSimWords))

/-- The node pass of `Sim_NtkComputeSwitching` (`simSwitch.c` lines
295-304): simulate each internal node in `Abc_AigDfs` order and store its
switching activity. -/
def nodeSimPass (nSimWords : Nat) :
    List Gate → (Nat → List Nat) × List ℚ → (Nat → List Nat) × List ℚ
  | [], sv => sv
  | g :: rest, (s, v) =>
    let s2 := updStore s g.gid (Sim_UtilSimulateNodeOne g s)
    nodeSimPass nSimWords rest
      (s2, v.set g.gid (Sim_ComputeSwitching (s2 g.gid) nSimWords))

/-- Embedding of `Sim_NtkComputeSwitching` (`simSwitch.c` lines 272-308).
`initStore` models `Sim_UtilInfoAlloc(Abc_NtkObjNumMax, nSimWords, 0)` -
the final 0 means the buffers are not cleared, so their initial contents
are an arbitrary oracle; `rand` models the `Sim_UtilSetRandom` draws.  The
result vector is `Vec_IntStart(Abc_NtkObjNumMax)` viewed as floats
(zero-initialised), written at each CI and each internal node. -/
def Sim_NtkComputeSwitching (ntk : Ntk) (nPatterns : Nat)
    (initStore rand : Nat → List Nat) : List ℚ :=
  let nSimWords := SIM_NUM_WORDS nPatterns
  let sv := ciSimPass rand nSimWords ntk.cis
    (initStore, List.replicate ntk.objNumMax 0)
  (nodeSimPass nSimWords ntk.gates sv).2

theorem Sim_ComputeSwitching_mem_unit (buf : List Nat) (n : Nat)
    (_hn : 1 ≤ n) (hlen : buf.length = n) :
    0 ≤ Sim_ComputeSwitching buf n ∧ Sim_ComputeSwitching buf n ≤ 1 :=
  ⟨Sim_ComputeSwitching_nonneg buf n hlen,
   le_trans (Sim_ComputeSwitching_le_half buf n) (by norm_num)⟩

theorem mem_set_unit {v : List ℚ} {x : ℚ} {i : Nat}
    (hv : ∀ q ∈ v, 0 ≤ q ∧ q ≤ 1) (hx : 0 ≤ x ∧ x ≤ 1) :
    ∀ q ∈ v.set i x, 0 ≤ q ∧ q ≤ 1 := by
  intro q hq
  rcases List.mem_or_eq_of_mem_set hq with hq2 | hq2
  · exact hv q hq2
  · subst hq2; exact hx

theorem ciSimPass_inv (rand : Nat → List Nat) (n : Nat) (hn : 1 ≤ n)
    (hrand : ∀ j, (rand j).length = n) :
    ∀ (cids : List Nat) (s : Nat → List Nat) (v : List ℚ),
      (∀ j, (s j).length = n) → (∀ q ∈ v, 0 ≤ q ∧ q ≤ 1) →
      (∀ j, ((ciSimPass rand n cids (s, v)).1 j).length = n)
      ∧ (∀ q ∈ (ciSimPass rand n cids (s, v)).2, 0 ≤ q ∧ q ≤ 1) := by
  intro cids
  induction cids with
  | nil => intro s v hs hv; exact ⟨hs, hv⟩
  | cons cid rest ih =>
    intro s v hs hv
    simp only [ciSimPass]
    have hs2 : ∀ j, (updStore s cid (rand cid) j).length = n := by
      intro j
      unfold updStore
      split_ifs with hj
      · exact hrand cid
      · exact hs j
    have hcid : (updStore s cid (rand cid) cid).length = n := hs2 cid
    exact ih _ _ hs2
      (mem_set_unit hv (Sim_ComputeSwitching_mem_unit _ n hn hcid))

theorem nodeSimPass_inv (n : Nat) (hn : 1 ≤ n) :
    ∀ (gs : List Gate) (s : Nat → List Nat) (v : List ℚ),
      (∀ j, (s j).length = n) → (∀ q ∈ v, 0 ≤ q ∧ q ≤ 1) →
      (∀ j, ((nodeSimPass n gs (s, v)).1 j).length = n)
      ∧ (∀ q ∈ (nodeSimPass n gs (s, v)).2, 0 ≤ q ∧ q ≤ 1) := by
  intro gs
  induction gs with
  | nil => intro s v hs hv; exact ⟨hs, hv⟩
  | cons g rest ih =>
    intro s v hs hv
    simp only [nodeSimPass]
    have hlen : (Sim_UtilSimulateNodeOne g s).length = n := by
      unfold Sim_UtilSimulateNodeOne
      rw [List.length_zipWith, hs g.f0, hs g.f1, Nat.min_self]
    have hs2 : ∀ j, (updStore s g.gid (Sim_UtilSimulateNodeOne g s) j).length = n := by
      intro j
      unfold updStore
      split_ifs with hj
      · exact hlen
      · exact hs j
    have hgid : (updStore s g.gid (Sim_UtilSimulateNodeOne g s) g.gid).length = n :=
      hs2 g.gid
    exact ih _ _ hs2
      (mem_set_unit hv (Sim_ComputeSwitching_mem_unit _ n hn hgid))

theorem getD_unit (v : List ℚ) (hv : ∀ q ∈ v, 0 ≤ q ∧ q ≤ 1) (i : Nat) :
    0 ≤ v.getD i 0 ∧ v.getD i 0 ≤ 1 := by
  rw [List.getD_eq_getElem?_getD]
  cases hg : v[i]? with
  | none => simp [Option.getD]
  | some q =>
    have hq : q ∈ v := List.getElem?_mem hg
    simpa [Option.getD] using hv q hq

/-- Claim C8: for every network and every pattern count `nPatterns ≥ 1`,
whatever the random draws and the initial (uninitialised) buffer contents,
every entry of the Switching Vector returned by `Sim_NtkComputeSwitching`
lies in `[0, 1]`; in particular the entry at every combinational-input
identifier and at every internal-node identifier does. -/
theorem C8_switching_vector_in_unit_interval (ntk : Ntk) (nPatterns : Nat)
    (initStore rand : Nat → List Nat) (hp : 1 ≤ nPatterns)
    (hinit : ∀ j, (initStore j).length = SIM_NUM_WORDS nPatterns)
    (hrand : ∀ j, (rand j).length = SIM_NUM_WORDS nPatterns) :
    (∀ q ∈ Sim_NtkComputeSwitching ntk nPatterns initStore rand, 0 ≤ q ∧ q ≤ 1)
    ∧ (∀ id ∈ ntk.cis ++ ntk.gates.map Gate.gid,
        0 ≤ (Sim_NtkComputeSwitching ntk nPatterns initStore rand).getD id 0
        ∧ (Sim_NtkComputeSwitching ntk nPatterns initStore rand).getD id 0 ≤ 1) := by
  have hn : 1 ≤ SIM_NUM_WORDS nPatterns := SIM_NUM_WORDS_pos nPatterns hp
  have hzero : ∀ q ∈ List.replicate ntk.objNumMax (0 : ℚ), 0 ≤ q ∧ q ≤ 1 := by
    intro q hq
    rw [List.eq_of_mem_replicate hq]
    norm_num
  have hci := ciSimPass_inv rand (SIM_NUM_WORDS nPatterns) hn hrand ntk.cis
    initStore (List.replicate ntk.objNumMax 0) hinit hzero
  have hmain : ∀ q ∈ Sim_NtkComputeSwitching ntk nPatterns initStore rand,
      0 ≤ q ∧ q ≤ 1 := by
    unfold Sim_NtkComputeSwitching
    exact (nodeSimPass_inv (SIM_NUM_WORDS nPatterns) hn ntk.gates _ _
      hci.1 hci.2).2
  exact ⟨hmain, fun id _ => getD_unit _ hmain id⟩

theorem C8_switching_vector_in_unit_interval_witness :
    (∀ q ∈ Sim_NtkComputeSwitching exNtk 64 (fun _ => [0, 0]) (fun _ => [5, 9]),
        0 ≤ q ∧ q ≤ 1)
    ∧ (∀ id ∈ exNtk.cis ++ exNtk.gates.map Gate.gid,
        0 ≤ (Sim_NtkComputeSwitching exNtk 64 (fun _ => [0, 0])
              (fun _ => [5, 9])).getD id 0
        ∧ (Sim_NtkComputeSwitching exNtk 64 (fun _ => [0, 0])
              (fun _ => [5, 9])).getD id 0 ≤ 1) :=
  C8_switching_vector_in_unit_interval exNtk 64 (fun _ => [0, 0]) (fun _ => [5, 9])
    (by decide) (fun _ => rfl) (fun _ => rfl)

/-! ### Claim C10: the enumeration-index fields of the file are immaterial -/

/-- Everything the loader ever inspects about one line: whether the header
loop skips it, and the results of the two record parses (the `%*d`
enumeration index appears in neither). -/
def lineData (s : String) : Bool × Option (Int × ℚ) × Option (Int × ℚ) :=
  (isSkipLine s, sscanfCI s, sscanfNode s)

/-- Lines with equal loader view. -/
def ldEq (s t : String) : Prop := lineData s = lineData t

/-- Buffers (possibly uninitialised) with equal loader view. -/
def ldEqO : Option String → Option String → Prop
  | none, none => True
  | some s, some t => ldEq s t
  | _, _ => False

theorem ldEq.skip {s t : String} (h : ldEq s t) : isSkipLine s = isSkipLine t :=
  congrArg (fun p => p.1) h

theorem ldEq.ci {s t : String} (h : ldEq s t) : sscanfCI s = sscanfCI t :=
  congrArg (fun p => p.2.1) h

theorem ldEq.node {s t : String} (h : ldEq s t) : sscanfNode s = sscanfNode t :=
  congrArg (fun p => p.2.2) h

theorem skipHeader_congr :
    ∀ (ls ls2 : List String) (b b2 : Option String),
      List.Forall₂ ldEq ls ls2 → ldEqO b b2 →
      ldEqO (skipHeader b ls).1 (skipHeader b2 ls2).1
      ∧ List.Forall₂ ldEq (skipHeader b ls).2 (skipHeader b2 ls2).2 := by
  intro ls
  induction ls with
  | nil =>
    intro ls2 b b2 hf hb
    cases hf
    exact ⟨hb, List.Forall₂.nil⟩
  | cons l rest ih =>
    intro ls2 b b2 hf hb
    cases hf with
    | cons hl hrest =>
      simp only [skipHeader]
      by_cases hs : isSkipLine l = true
      · rw [if_pos hs, if_pos (hl.skip ▸ hs)]
        exact ih _ _ _ hrest hl
      · rw [if_neg hs, if_neg (hl.skip ▸ hs)]
        exact ⟨hl, hrest⟩

/-- Relation between the two runs' loop outcomes: equal failures, or
related buffers, related streams and equal arrays. -/
def loopResRel : LoopRes → LoopRes → Prop
  | .fail e, .fail e2 => e = e2
  | .next b s a, .next b2 s2 a2 => ldEqO b b2 ∧ List.Forall₂ ldEq s s2 ∧ a = a2
  | _, _ => False

theorem readCiLoop_congr :
    ∀ (rem : Nat) (i nCis : Nat) (b b2 : Option String) (st st2 : List String)
      (arr : List (Option ℚ)),
      ldEqO b b2 → List.Forall₂ ldEq st st2 →
      loopResRel (readCiLoop rem i nCis b st arr) (readCiLoop rem i nCis b2 st2 arr) := by
  intro rem
  induction rem with
  | zero =>
    intro i nCis b b2 st st2 arr hb hst
    exact ⟨hb, hst, rfl⟩
  | succ r ih =>
    intro i nCis b b2 st st2 arr hb hst
    cases b with
    | none =>
      cases b2 with
      | none => exact rfl
      | some t => exact hb.elim
    | some l =>
      cases b2 with
      | none => exact hb.elim
      | some l2 =>
        have hl : ldEq l l2 := hb
        have hci : sscanfCI l2 = sscanfCI l := hl.ci.symm
        simp only [readCiLoop, hci]
        rcases hparse : sscanfCI l with _ | ⟨id, v⟩
        · exact rfl
        · dsimp only
          by_cases hbound : 0 ≤ id ∧ id.toNat < arr.length
          · simp only [if_pos hbound]
            cases hst with
            | nil =>
              dsimp only
              by_cases hlast : (i : Int) < (nCis : Int) - 1
              · simp only [if_pos hlast]
                exact rfl
              · simp only [if_neg hlast]
                exact ih (i + 1) nCis (some l) (some l2) [] [] _ hb List.Forall₂.nil
            | @cons x y xs ys hxy hrest =>
              dsimp only
              exact ih (i + 1) nCis (some x) (some y) xs ys _ hxy hrest
          · simp only [if_neg hbound]
            exact rfl

theorem readNodeLoop_congr :
    ∀ (gs : List Gate) (i : Nat) (nNodes : Int) (b b2 : Option String)
      (st st2 : List String) (arr : List (Option ℚ)),
      ldEqO b b2 → List.Forall₂ ldEq st st2 →
      loopResRel (readNodeLoop gs i nNodes b st arr)
        (readNodeLoop gs i nNodes b2 st2 arr) := by
  intro gs
  induction gs with
  | nil =>
    intro i nNodes b b2 st st2 arr hb hst
    exact ⟨hb, hst, rfl⟩
  | cons g rest ih =>
    intro i nNodes b b2 st st2 arr hb hst
    cases b with
    | none =>
      cases b2 with
      | none => exact rfl
      | some t => exact hb.elim
    | some l =>
      cases b2 with
      | none => exact hb.elim
      | some l2 =>
        have hl : ldEq l l2 := hb
        have hnd : sscanfNode l2 = sscanfNode l := hl.node.symm
        simp only [readNodeLoop, hnd]
        rcases hparse : sscanfNode l with _ | ⟨id, v⟩
        · exact rfl
        · dsimp only
          by_cases hbound : 0 ≤ id ∧ id.toNat < arr.length
          · simp only [if_pos hbound]
            cases hst with
            | nil =>
              dsimp only
              by_cases hlast : (i : Int) < nNodes - 1
              · simp only [if_pos hlast]
                exact rfl
              · simp only [if_neg hlast]
                exact ih (i + 1) nNodes (some l) (some l2) [] [] _ hb List.Forall₂.nil
            | @cons x y xs ys hxy hrest =>
              dsimp only
              exact ih (i + 1) nNodes (some x) (some y) xs ys _ hxy hrest
          · simp only [if_neg hbound]
            exact rfl

theorem loadFromLines_congr (ntk : Ntk) (nNodes : Int) (ls ls2 : List String)
    (hf : List.Forall₂ ldEq ls ls2) :
    loadFromLines ntk nNodes ls = loadFromLines ntk nNodes ls2 := by
  unfold loadFromLines
  by_cases hneg : nNodes < 0
  · rw [if_pos hneg, if_pos hneg]
  · rw [if_neg hneg, if_neg hneg]
    have hsh := skipHeader_congr ls ls2 none none hf trivial
    rcases hsk : skipHeader none ls with ⟨b, st⟩
    rcases hsk2 : skipHeader none ls2 with ⟨b2, st2⟩
    rw [hsk, hsk2] at hsh
    dsimp only
    have hci := readCiLoop_congr ntk.cis.length 0 ntk.cis.length b b2 st st2
      (List.replicate ntk.cis.length none) hsh.1 hsh.2
    rcases hr1 : readCiLoop ntk.cis.length 0 ntk.cis.length b st
        (List.replicate ntk.cis.length none) with e1 | ⟨b3, st3, arr3⟩
      <;> rcases hr2 : readCiLoop ntk.cis.length 0 ntk.cis.length b2 st2
        (List.replicate ntk.cis.length none) with e2 | ⟨b4, st4, arr4⟩
      <;> rw [hr1, hr2] at hci
    · cases hci
      rfl
    · exact hci.elim
    · exact hci.elim
    · obtain ⟨hb34, hst34, harr⟩ := hci
      subst harr
      dsimp only
      have hnd := readNodeLoop_congr ntk.gates 0 nNodes b3 b4 st3 st4
        (List.replicate nNodes.toNat none) hb34 hst34
      rcases hn1 : readNodeLoop ntk.gates 0 nNodes b3 st3
          (List.replicate nNodes.toNat none) with f1 | ⟨b5, st5, arr5⟩
        <;> rcases hn2 : readNodeLoop ntk.gates 0 nNodes b4 st4
          (List.replicate nNodes.toNat none) with f2 | ⟨b6, st6, arr6⟩
        <;> rw [hn1, hn2] at hnd
      · cases hnd
        rfl
      · exact hnd.elim
      · exact hnd.elim
      · obtain ⟨hb56, hst56, harr2⟩ := hnd
        subst harr2
        rfl

theorem isSkipLine_of_data_cons (s : String) (c : Char) (l : List Char)
    (hs : s.data = c :: l) : isSkipLine s = (c == '#') := by
  unfold isSkipLine
  rw [hs]

theorem sscanfCI_ci_shape (n : Nat) (r : List Char) (hr : headIsDigit r = false)
    (s : String)
    (hs : s.data = 'C' :: 'I' :: ' ' :: (natChars (n + 1) n ++ r)) :
    sscanfCI s
      = ((lit ':' r).bind fun l2 =>
          (lits ['I', 'D'] (skipWs l2)).bind fun l3 =>
          (lit '=' l3).bind fun l4 =>
          (scanInt l4).bind fun p2 =>
          (scanFloat p2.2).map fun p3 => (p2.1, p3.1)) := by
  unfold sscanfCI
  rw [hs, lits2]
  simp only [Option.some_bind]
  rw [scanInt_space, scanInt_natChars (n + 1) n (by omega) r hr]
  simp only [Option.some_bind]

theorem sscanfNode_ci_shape (n : Nat) (r : List Char) (s : String)
    (hs : s.data = 'C' :: 'I' :: ' ' :: (natChars (n + 1) n ++ r)) :
    sscanfNode s = none := by
  unfold sscanfNode
  rw [hs, skipWs_not_ws 'C' _ (by decide)]
  simp [lits, lit]

theorem sscanfNode_node_shape (n : Nat) (r : List Char) (hr : headIsDigit r = false)
    (s : String)
    (hs : s.data = 'N' :: 'o' :: 'd' :: 'e' :: ' ' :: (natChars (n + 1) n ++ r)) :
    sscanfNode s
      = ((lit ':' (skipWs r)).bind fun l2 =>
          (lits ['I', 'D'] (skipWs l2)).bind fun l3 =>
          (lit '=' (skipWs l3)).bind fun l4 =>
          (scanInt l4).bind fun p2 =>
          (scanFloat p2.2).map fun p3 => (p2.1, p3.1)) := by
  unfold sscanfNode
  rw [hs, skipWs_not_ws 'N' _ (by decide), lits4]
  simp only [Option.some_bind]
  rw [scanInt_space, scanInt_natChars (n + 1) n (by omega) r hr]
  simp only [Option.some_bind]

theorem sscanfCI_node_shape (n : Nat) (r : List Char) (s : String)
    (hs : s.data = 'N' :: 'o' :: 'd' :: 'e' :: ' ' :: (natChars (n + 1) n ++ r)) :
    sscanfCI s = none := by
  unfold sscanfCI
  rw [hs]
  simp [lits, lit]

/-- Two lines that are equal, or differ only in the integer value of the
enumeration-index digit run that follows the record keyword. -/
def idxVariant (s t : String) : Prop :=
  s = t
  ∨ (∃ n n2 r, headIsDigit r = false
      ∧ s.data = 'C' :: 'I' :: ' ' :: (natChars (n + 1) n ++ r)
      ∧ t.data = 'C' :: 'I' :: ' ' :: (natChars (n2 + 1) n2 ++ r))
  ∨ (∃ n n2 r, headIsDigit r = false
      ∧ s.data = 'N' :: 'o' :: 'd' :: 'e' :: ' ' :: (natChars (n + 1) n ++ r)
      ∧ t.data = 'N' :: 'o' :: 'd' :: 'e' :: ' ' :: (natChars (n2 + 1) n2 ++ r))

theorem ldEq_of_idxVariant {s t : String} (h : idxVariant s t) : ldEq s t := by
  rcases h with h | ⟨n, n2, r, hr, hs, ht⟩ | ⟨n, n2, r, hr, hs, ht⟩
  · subst h; rfl
  · unfold ldEq lineData
    rw [isSkipLine_of_data_cons s 'C' _ hs, isSkipLine_of_data_cons t 'C' _ ht,
      sscanfCI_ci_shape n r hr s hs, sscanfCI_ci_shape n2 r hr t ht,
      sscanfNode_ci_shape n r s hs, sscanfNode_ci_shape n2 r t ht]
  · unfold ldEq lineData
    rw [isSkipLine_of_data_cons s 'N' _ hs, isSkipLine_of_data_cons t 'N' _ ht,
      sscanfNode_node_shape n r hr s hs, sscanfNode_node_shape n2 r hr t ht,
      sscanfCI_node_shape n r s hs, sscanfCI_node_shape n2 r t ht]

/-- Claim C10 (implicit): the loader parses the enumeration-index field of
every `CI` and `Node` record with the assignment-suppressing `%*d`
conversion and discards it; two input files that differ only in the
integer values of those index fields load to identical results - only the
`ID=` field determines where a value is stored. -/
theorem C10_index_fields_ignored (ntk : Ntk) (nNodes : Int) (fn : String)
    (fs fs2 : String → Option (List String)) (ls ls2 : List String)
    (hfs : fs fn = some ls) (hfs2 : fs2 fn = some ls2)
    (h : List.Forall₂ idxVariant ls ls2) :
    Sim_NtkLoadSwitching ntk nNodes (some fn) fs
      = Sim_NtkLoadSwitching ntk nNodes (some fn) fs2 := by
  unfold Sim_NtkLoadSwitching
  dsimp only
  rw [hfs, hfs2]
  exact loadFromLines_congr ntk nNodes ls ls2
    (List.Forall₂.imp (fun _ _ hv => ldEq_of_idxVariant hv) h)

theorem C10_index_fields_ignored_witness :
    Sim_NtkLoadSwitching c2Ntk 5 (some ("t.switch"))
        (fun _ => some ["CI 99: ID=0 .5"])
      = Sim_NtkLoadSwitching c2Ntk 5 (some ("t.switch"))
        (fun _ => some ["CI 0: ID=0 .5"]) :=
  C10_index_fields_ignored c2Ntk 5 ("t.switch") _ _ _ _ rfl rfl
    (List.Forall₂.cons
      (Or.inr (Or.inl ⟨99, 0, (": ID=0 .5").data, by decide, by decide, by decide⟩))
      List.Forall₂.nil)
